import Mathlib

/-!
Verification of the midnight-billow deployment/connection state machine and
derived-state composition pipeline.

The definitions below are a shallow embedding of:
  * `api/src/index.new.ts` — the `InvoiceAPI` adapter: the `state$`
    `combineLatest` projection, and the `issueInvoice` / `payInvoice` /
    `resetInvoice` transaction executors with their history records;
  * `bboard-ui/src/contexts/BrowserDeployedBoardManager.ts` — the
    `BrowserDeployedInvoiceManager` deployment registry (`resolve`,
    `deployDeployment`, `joinDeployment`), the cached-promise provider
    bundle accessor (`getProviders`), and the wallet connector bootstrap
    (`connectToWallet`).

JavaScript byte strings (`Uint8Array`) are modelled as `List (Fin 256)`,
JS strings as Lean `String`, bigints (which are non-negative here: ledger
`sequence` is a counter and `amount` a field element) as `Nat`.
-/

namespace Billow

/-! ## Bytes and hex encoding

`toHex` models `toHex` from `@midnight-ntwrk/midnight-js-utils`: each byte
becomes two lowercase hex characters.  The adapter compares
`toHex(ledgerState.buyerPk) === toHex(hashedSecretKey)`. -/

/-- A JS `Uint8Array` is a list of bytes. -/
abbrev Bytes := List (Fin 256)

/-- Hex character for a nibble: 0-9 then a-f. -/
def hexDigit (n : Nat) : Char :=
  Char.ofNat (if n < 10 then 48 + n else 87 + n)

/-- Two-character lowercase hex encoding of a single byte. -/
def byteToHex (b : Fin 256) : List Char :=
  [hexDigit (b.val / 16), hexDigit (b.val % 16)]

/-- Hex string of a byte string, as produced by `toHex`. -/
def toHex (bs : Bytes) : String :=
  String.mk (bs.flatMap byteToHex)

/-- Big-endian fixed-width byte encoding of a non-negative bigint.
Models `convert_bigint_to_Uint8Array(width, n)` from
`@midnight-ntwrk/compact-runtime` (an external collaborator; the adapter
only needs that it encodes the sequence as 32 fixed-width bytes). -/
def convert_bigint_to_Uint8Array (width n : Nat) : Bytes :=
  (List.range width).map (fun i => ⟨n / 256 ^ (width - 1 - i) % 256, Nat.mod_lt _ (by omega)⟩)

/-! ## JSON values

Modelled from the spec: the `JSON.parse` / `JSON.stringify` builtins are
host-language primitives, not repository code.  They are modelled here on
the fragment the repository exercises: `invoiceJson` is always the
serialization of a flat object with string members (`InvoiceData`), so the
parser covers flat objects, strings (with the escape forms `JSON.stringify`
emits), integer numbers, and the `true` / `false` / `null` literals. -/

/-- A parsed JSON value, as returned by `JSON.parse`. -/
inductive Json where
  | null
  | bool (b : Bool)
  | num (n : Int)
  | str (s : String)
  | obj (members : List (String × Json))

/-- Value of a hex character, as accepted in a `\u` escape. -/
def hexCharVal (c : Char) : Option Nat :=
  if '0' ≤ c ∧ c ≤ '9' then some (c.toNat - 48)
  else if 'a' ≤ c ∧ c ≤ 'f' then some (c.toNat - 87)
  else if 'A' ≤ c ∧ c ≤ 'F' then some (c.toNat - 55)
  else none

/-- Body of a JSON string literal after the opening quote: returns the
decoded characters and the input remaining after the closing quote. -/
def parseStringBody : List Char → Option (List Char × List Char)
  | [] => none
  | c :: cs =>
    if c = '"' then some ([], cs)
    else if c = '\\' then
      match cs with
      | [] => none
      | e :: cs2 =>
        if e = '"' ∨ e = '\\' ∨ e = '/' then
          (parseStringBody cs2).map (fun p => (e :: p.1, p.2))
        else if e = 'b' then (parseStringBody cs2).map (fun p => ('\x08' :: p.1, p.2))
        else if e = 'f' then (parseStringBody cs2).map (fun p => ('\x0c' :: p.1, p.2))
        else if e = 'n' then (parseStringBody cs2).map (fun p => ('\n' :: p.1, p.2))
        else if e = 'r' then (parseStringBody cs2).map (fun p => ('\r' :: p.1, p.2))
        else if e = 't' then (parseStringBody cs2).map (fun p => ('\t' :: p.1, p.2))
        else if e = 'u' then
          match cs2 with
          | h1 :: h2 :: h3 :: h4 :: cs3 =>
            match hexCharVal h1, hexCharVal h2, hexCharVal h3, hexCharVal h4 with
            | some v1, some v2, some v3, some v4 =>
              (parseStringBody cs3).map
                (fun p => (Char.ofNat (((v1 * 16 + v2) * 16 + v3) * 16 + v4) :: p.1, p.2))
            | _, _, _, _ => none
          | _ => none
        else none
    else if c.toNat < 32 then none
    else (parseStringBody cs).map (fun p => (c :: p.1, p.2))

/-- Numeric value of a list of decimal digit characters. -/
def digitsToNat (ds : List Char) : Nat :=
  ds.foldl (fun acc c => acc * 10 + (c.toNat - 48)) 0

/-- A JSON number (integer fragment). -/
def parseNumber (cs : List Char) : Option (Json × List Char) :=
  match cs with
  | '-' :: rest =>
    let p := rest.span (fun c => c.isDigit)
    if p.1.isEmpty then none else some (.num (-(digitsToNat p.1 : Int)), p.2)
  | _ =>
    let p := cs.span (fun c => c.isDigit)
    if p.1.isEmpty then none else some (.num (digitsToNat p.1 : Int), p.2)

/-- A scalar JSON value: string, number, or literal. -/
def parseScalar (cs : List Char) : Option (Json × List Char) :=
  match cs with
  | [] => none
  | c :: cs1 =>
    if c = '"' then (parseStringBody cs1).map (fun p => (.str (String.mk p.1), p.2))
    else if c = 't' then
      match cs1 with
      | 'r' :: 'u' :: 'e' :: rest => some (.bool true, rest)
      | _ => none
    else if c = 'f' then
      match cs1 with
      | 'a' :: 'l' :: 's' :: 'e' :: rest => some (.bool false, rest)
      | _ => none
    else if c = 'n' then
      match cs1 with
      | 'u' :: 'l' :: 'l' :: rest => some (.null, rest)
      | _ => none
    else parseNumber cs

/-- Members of a JSON object after the opening brace, for a non-empty
member list; the fuel bounds the number of members. -/
def parseMembers : Nat → List Char → Option (List (String × Json) × List Char)
  | 0, _ => none
  | fuel + 1, cs =>
    match cs with
    | [] => none
    | q :: cs1 =>
      if q = '"' then
        match parseStringBody cs1 with
        | none => none
        | some (key, rest1) =>
          match rest1 with
          | [] => none
          | colon :: rest2 =>
            if colon = ':' then
              match parseScalar rest2 with
              | none => none
              | some (v, rest3) =>
                match rest3 with
                | [] => none
                | t :: rest4 =>
                  if t = ',' then
                    (parseMembers fuel rest4).map (fun p => ((String.mk key, v) :: p.1, p.2))
                  else if t = '\x7d' then some ([(String.mk key, v)], rest4)
                  else none
            else none
      else none

/-- A JSON value: a flat object or a scalar. -/
def parseValue (cs : List Char) : Option (Json × List Char) :=
  match cs with
  | [] => none
  | c :: cs1 =>
    if c = '\x7b' then
      match cs1 with
      | [] => none
      | d :: cs2 => if d = '\x7d' then some (.obj [], cs2) else (parseMembers cs1.length cs1).map (fun p => (.obj p.1, p.2))
    else parseScalar cs

/-- The `JSON.parse` builtin on the modelled fragment, wrapped in the
adapter's `try`/`catch`: a parse failure becomes `none` rather than a
thrown exception. -/
def jsParse (s : String) : Option Json :=
  match parseValue s.data with
  | some (v, []) => some v
  | _ => none

/-- Escaping of one character inside a JSON string literal, as performed
by `JSON.stringify`. -/
def escapeChar (c : Char) : List Char :=
  if c = '"' then ['\\', '"']
  else if c = '\\' then ['\\', '\\']
  else if c = '\x08' then ['\\', 'b']
  else if c = '\x0c' then ['\\', 'f']
  else if c = '\n' then ['\\', 'n']
  else if c = '\r' then ['\\', 'r']
  else if c = '\t' then ['\\', 't']
  else if c.toNat < 32 then
    '\\' :: 'u' :: '0' :: '0' :: hexDigit (c.toNat / 16) :: [hexDigit (c.toNat % 16)]
  else [c]

/-- Escaped body of a JSON string literal. -/
def escString (s : List Char) : List Char :=
  s.flatMap escapeChar

/-- A quoted, escaped JSON string literal. -/
def quoteChars (s : String) : List Char :=
  '"' :: escString s.data ++ ['"']

/-! ## Invoice data model (`api/src/common-types.ts`) -/

/-- The ledger `state` enum of the invoice contract. -/
inductive State where
  | EMPTY
  | ISSUED
  | PAID
deriving DecidableEq, Repr

/-- The invoice metadata record serialized into `invoiceJson`. -/
structure InvoiceData where
  title : String
  description : String
  issuedAt : String
  currency : String
deriving DecidableEq, Repr

/-- The public, on-chain ledger projection `ledger(contractState.data)`.
`invoiceJson` holds the `Opaque` string value (empty when no invoice is
issued). -/
structure LedgerState where
  state : State
  sequence : Nat
  amount : Nat
  buyerPk : Bytes
  invoiceJson : String
deriving DecidableEq

/-- The locally held private state (`witnesses.ts`): a 32-byte secret. -/
structure InvoicePrivateState where
  secretKey : Bytes
deriving DecidableEq

/-- The kind tag of a transaction history entry
(`'issue' | 'payment' | 'reset'`). -/
inductive EntryType where
  | issue
  | payment
  | reset
deriving DecidableEq, Repr

/-- One transaction history record.  `timestamp` models the `Date` value
taken at append time. -/
structure TransactionHistoryEntry where
  type : EntryType
  txHash : String
  blockHeight : Nat
  timestamp : Nat
  amount : Option Nat
  invoiceData : Option InvoiceData
deriving DecidableEq

/-- The derived state snapshot emitted by `state$`.  Because the source
casts `JSON.parse`'s result to `InvoiceData` without validation, the
`invoiceData` field carries whatever JSON value was parsed. -/
structure InvoiceDerivedState where
  state : State
  sequence : Nat
  amount : Nat
  invoiceData : Option Json
  canPay : Bool
  transactionHistory : List TransactionHistoryEntry

/-- The `combineLatest` projection of `state$`
(`api/src/index.new.ts`, `InvoiceAPI` constructor): recomputes the hashed
secret key via the contract's pure circuit, parses `invoiceJson` when
non-empty (a parse failure is logged and leaves the field undefined), and
compares `toHex(buyerPk)` with `toHex(hashedSecretKey)`.

The pure circuit `pureCircuits.buyerKey` lives in the compiled contract
(`contract/src/managed/invoice`), an external collaborator; the projection
is parametric in it (`buyerKey`). -/
def projectDerivedState (buyerKey : Bytes → Bytes → Bytes) (ledgerState : LedgerState)
    (privateState : InvoicePrivateState) (history : List TransactionHistoryEntry) :
    InvoiceDerivedState :=
  let hashedSecretKey :=
    buyerKey privateState.secretKey (convert_bigint_to_Uint8Array 32 ledgerState.sequence)
  let invoiceData : Option Json :=
    if ledgerState.invoiceJson = "" then none else jsParse ledgerState.invoiceJson
  { state := ledgerState.state
    sequence := ledgerState.sequence
    amount := ledgerState.amount
    invoiceData := invoiceData
    canPay := decide (toHex ledgerState.buyerPk = toHex hashedSecretKey)
    transactionHistory := history }

/-- The `JSON.stringify` serialization of an `InvoiceData` record, member
by member in declaration order. -/
def stringifyChars (d : InvoiceData) : List Char :=
  '\x7b' :: (quoteChars "title" ++ ':' :: quoteChars d.title ++
    ',' :: quoteChars "description" ++ ':' :: quoteChars d.description ++
    ',' :: quoteChars "issuedAt" ++ ':' :: quoteChars d.issuedAt ++
    ',' :: quoteChars "currency" ++ ':' :: quoteChars d.currency ++ ['\x7d'])

/-- The `invoiceJson` string submitted by `issueInvoice`
(`JSON.stringify(invoiceData)`). -/
def stringifyInvoice (d : InvoiceData) : String :=
  String.mk (stringifyChars d)

/-- The JSON object value denoted by an `InvoiceData` record (what a JS
deep-equality comparison against the input record checks). -/
def invoiceToJson (d : InvoiceData) : Json :=
  .obj [("title", .str d.title), ("description", .str d.description),
    ("issuedAt", .str d.issuedAt), ("currency", .str d.currency)]

/-- Modelled from the spec: decoding a parsed JSON value as "the expected
invoice structure" — an object with exactly the four string members of
`InvoiceData`.  The source performs no such validation (it casts). -/
def decodeInvoiceData : Json → Option InvoiceData
  | .obj [("title", .str t), ("description", .str de), ("issuedAt", .str i), ("currency", .str c)] =>
    some ⟨t, de, i, c⟩
  | _ => none

/-! ## Transaction executor (`issueInvoice` / `payInvoice` / `resetInvoice`)

Each operation awaits the contract call's finalized transaction data and
only then pushes a history entry; a throw anywhere in the `try` block is
logged and rethrown, leaving the history untouched. -/

/-- The finalized public transaction data (`txData.public`). -/
structure TxPublicData where
  txHash : String
  blockHeight : Nat
deriving DecidableEq

/-- A JS thrown value: either an `Error` object or an arbitrary non-Error
value (kept as its `String(...)` rendering). -/
inductive Thrown where
  | err (message : String)
  | nonErr (stringRep : String)
deriving DecidableEq

/-- A JS `Error` value, reduced to its message. -/
structure ErrorVal where
  message : String
deriving DecidableEq

/-- The normalization `error instanceof Error ? error : new Error(String(error))`. -/
def normalizeJsError : Thrown → ErrorVal
  | .err m => ⟨m⟩
  | .nonErr s => ⟨s⟩

/-- Outcome of an awaited contract call (`deployedContract.callTx....`):
either finalized transaction data or a thrown value. -/
inductive CallOutcome where
  | success (tx : TxPublicData)
  | thrown (e : Thrown)
deriving DecidableEq

/-- The `issueInvoice` operation: serializes the invoice data, performs
the contract call, and on finalization appends an `issue` history entry
carrying the finalized hash and height; on a throw the history is
unchanged and the error is rethrown. -/
def issueInvoice (outcome : CallOutcome) (amount : Nat) (invoiceData : InvoiceData) (now : Nat)
    (history : List TransactionHistoryEntry) :
    List TransactionHistoryEntry × Except Thrown String :=
  match outcome with
  | .success tx =>
    (history ++ [⟨.issue, tx.txHash, tx.blockHeight, now, some amount, some invoiceData⟩],
      .ok tx.txHash)
  | .thrown e => (history, .error e)

/-- The `payInvoice` operation (history type `payment`, no amount or
invoice data on the entry). -/
def payInvoice (outcome : CallOutcome) (now : Nat) (history : List TransactionHistoryEntry) :
    List TransactionHistoryEntry × Except Thrown String :=
  match outcome with
  | .success tx =>
    (history ++ [⟨.payment, tx.txHash, tx.blockHeight, now, none, none⟩], .ok tx.txHash)
  | .thrown e => (history, .error e)

/-- The `resetInvoice` operation (history type `reset`). -/
def resetInvoice (outcome : CallOutcome) (now : Nat) (history : List TransactionHistoryEntry) :
    List TransactionHistoryEntry × Except Thrown String :=
  match outcome with
  | .success tx =>
    (history ++ [⟨.reset, tx.txHash, tx.blockHeight, now, none, none⟩], .ok tx.txHash)
  | .thrown e => (history, .error e)

/-! ## Deployment registry (`BrowserDeployedInvoiceManager`)

The manager keeps a `BehaviorSubject` holding an array of
`BehaviorSubject<InvoiceDeployment>`.  Each inner subject is modelled as a
cell with a numeric identity (JS object identity) and its current status.
`resolve` is synchronous: it scans the current array for a `deployed`
deployment whose `api.deployedContractAddress` equals the requested
address, and otherwise appends a fresh `in-progress` cell and fires
(`void`) the asynchronous deploy/join task.  The fired task is recorded in
`pending` together with the requested address; it delivers its single
`deployment.next(...)` via `completeTask`. -/

/-- The status held by one deployment cell. -/
inductive DeployStatus where
  | inProgress
  | deployed (address : String)
  | failed (error : ErrorVal)
deriving DecidableEq

/-- The registry state: the observable cell array (in append order), the
fired-but-undelivered deploy/join tasks, and the next fresh cell
identity. -/
structure RegistryState where
  cells : List (Nat × DeployStatus)
  pending : List (Nat × Option String)
  nextId : Nat
deriving DecidableEq

/-- The initial registry (`new BehaviorSubject([])`). -/
def initialRegistry : RegistryState := ⟨[], [], 0⟩

/-- The scan in `resolve`: the first deployment with `deployed` status
whose `api.deployedContractAddress` equals the requested address
(`undefined` is modelled as `none` and never equals a deployed address). -/
def findDeployedCell (cells : List (Nat × DeployStatus)) (contractAddress : Option String) :
    Option (Nat × DeployStatus) :=
  cells.find? (fun c =>
    match c.2 with
    | .deployed a => contractAddress = some a
    | _ => false)

/-- The synchronous part of `resolve(contractAddress?)`: returns the cell
identity handed back to the caller and the updated registry. -/
def resolve (contractAddress : Option String) (s : RegistryState) : Nat × RegistryState :=
  match findDeployedCell s.cells contractAddress with
  | some c => (c.1, s)
  | none =>
    (s.nextId,
      ⟨s.cells ++ [(s.nextId, .inProgress)], s.pending ++ [(s.nextId, contractAddress)],
        s.nextId + 1⟩)

/-- Result of an awaited deploy/join task: `ok` carries the deployed
contract's address (for a join this equals the requested address; for a
fresh deploy it is the newly minted one), `thrownErr` the thrown value. -/
inductive TaskResult where
  | ok (mintedAddress : String)
  | thrownErr (e : Thrown)
deriving DecidableEq

/-- Delivery of a fired deploy/join task: the single
`deployment.next({status: 'deployed'|'failed', ...})` call at the end of
`deployDeployment` / `joinDeployment`.  A task fires at most once, so a
delivery for an identity with no pending task changes nothing. -/
def completeTask (id : Nat) (r : TaskResult) (s : RegistryState) : RegistryState :=
  match s.pending.find? (fun p => p.1 = id) with
  | none => s
  | some p =>
    ⟨s.cells.map (fun c =>
        if c.1 = id then
          (c.1,
            match r with
            | .ok minted => DeployStatus.deployed (p.2.getD minted)
            | .thrownErr e => DeployStatus.failed (normalizeJsError e))
        else c),
      s.pending.filter (fun q => ¬ q.1 = id), s.nextId⟩

/-- An event of the registry's event-driven execution: a synchronous
`resolve` call, or the completion of a fired deploy/join task. -/
inductive RegistryEvent where
  | resolveCall (contractAddress : Option String)
  | taskDone (id : Nat) (r : TaskResult)
deriving DecidableEq

/-- One scheduler step. -/
def registryStep (s : RegistryState) : RegistryEvent → RegistryState
  | .resolveCall addr => (resolve addr s).2
  | .taskDone id r => completeTask id r s

/-- The registry state reached from the initial state by a trace of
events. -/
def runRegistry (trace : List RegistryEvent) : RegistryState :=
  trace.foldl registryStep initialRegistry

/-- The current status of the cell with the given identity. -/
def cellStatus (s : RegistryState) (id : Nat) : Option DeployStatus :=
  (s.cells.find? (fun c => c.1 = id)).map (fun c => c.2)

/-- Structural invariant of reachable registry states: cell identities
are below the fresh-identity counter, and every fired-but-undelivered
task belongs to a cell still in `in-progress` status (each task delivers
its `deployment.next` exactly once). -/
def RegInv (s : RegistryState) : Prop :=
  (∀ c ∈ s.cells, c.1 < s.nextId) ∧
    (∀ p ∈ s.pending, cellStatus s p.1 = some .inProgress)

/-! ## Provider bundle accessor (`getProviders`)

`getProviders` caches a `Promise` in a private field:
`this.#initializedProviders ?? (this.#initializedProviders = ...)`.
JavaScript is single-threaded, so calls are totally ordered; a promise is
identified by the (zero-based) construction count at its creation.  The
eventual settlement of each constructed promise is environment data
(`PromiseOutcome`). -/

/-- The accessor's state: the cached promise (if any) and how many times
the provider construction has been started. -/
structure ProviderCache where
  cache : Option Nat
  initCount : Nat
deriving DecidableEq

/-- The accessor state before any call. -/
def initialProviderCache : ProviderCache := ⟨none, 0⟩

/-- One call to `getProviders`: returns the promise handed to the caller
and the updated state.  Only a call finding an empty cache starts a
construction. -/
def getProviders (s : ProviderCache) : Nat × ProviderCache :=
  match s.cache with
  | some p => (p, s)
  | none => (s.initCount, ⟨some s.initCount, s.initCount + 1⟩)

/-- A sequence of `n` calls to `getProviders`, returning the promises the
callers received in order. -/
def runGetProviders : Nat → ProviderCache → List Nat × ProviderCache
  | 0, s => ([], s)
  | n + 1, s =>
    let r := getProviders s
    let rs := runGetProviders n r.2
    (r.1 :: rs.1, rs.2)

/-- The eventual settlement of a constructed provider-bundle promise:
what a caller awaiting it observes. -/
inductive PromiseOutcome where
  | fulfilled
  | rejected (e : ErrorVal)
deriving DecidableEq

/-! ## Wallet connector bootstrap (`connectToWallet`)

The rx pipeline polls `window.midnight?.mnLace` every 100ms, errors on a
semver mismatch, applies a 1s timeout to the connector's appearance and a
5s timeout to the `isEnabled` round-trip, then calls `enable()`.  The
`catchError` operator sits after the `enable` stage and replaces every
error reaching it — from whichever upstream stage — with
`new Error(\x27Application is not authorized\x27)`; the
`serviceUriConfig` retrieval happens after that catch. -/

/-- A semver version as advertised by the connector (`apiVersion`). -/
structure SemverVersion where
  major : Nat
  minor : Nat
  patch : Nat
deriving DecidableEq

/-- Rendering of a version, e.g. `2.0.0`. -/
def renderVersion (v : SemverVersion) : String :=
  toString v.major ++ "." ++ toString v.minor ++ "." ++ toString v.patch

/-- The check `semver.satisfies(apiVersion, '1.x')`: major version 1. -/
def semverSatisfies1x (v : SemverVersion) : Bool :=
  v.major = 1

/-- The connector's service endpoint configuration. -/
structure ServiceUriConfig where
  indexerUri : String
  indexerWsUri : String
  proverServerUri : String
deriving DecidableEq

/-- The host environment as the bootstrap observes it: whether a connector
is injected within the 1s discovery window, its advertised version,
whether `isEnabled` answers within 5s, its answer, whether `enable()`
resolves, and the endpoint configuration. -/
structure WalletConnectorEnv where
  connectorAppears : Bool
  apiVersion : SemverVersion
  isEnabledResponds : Bool
  isEnabledValue : Bool
  enableSucceeds : Bool
  uris : ServiceUriConfig
deriving DecidableEq

/-- The connector-not-found error
(`Could not find Midnight Lace wallet. Extension installed?`). -/
def notFoundError : ErrorVal :=
  ⟨"Could not find Midnight Lace wallet. Extension installed?"⟩

/-- The version-incompatibility error built in the version-check stage. -/
def incompatibleVersionError (actual : SemverVersion) : ErrorVal :=
  ⟨"Incompatible version of Midnight Lace wallet found. Require \x271.x\x27, got \x27" ++
    renderVersion actual ++ "\x27."⟩

/-- The unresponsive-connector error
(`Midnight Lace wallet has failed to respond. Extension enabled?`). -/
def unresponsiveError : ErrorVal :=
  ⟨"Midnight Lace wallet has failed to respond. Extension enabled?"⟩

/-- The authorization error produced by the `catchError` stage
(`Application is not authorized`). -/
def notAuthorizedError : ErrorVal :=
  ⟨"Application is not authorized"⟩

/-- The error with which a rejected `enable()` call fails the stream
before `catchError` rewrites it (the wallet's own rejection value). -/
def enableRejectedError : ErrorVal :=
  ⟨"enable() rejected"⟩

/-- The pipeline stages before `enable()`: discovery with 1s timeout,
version check, `isEnabled` with 5s timeout.  (The `isEnabled` boolean is
only logged; the pipeline proceeds regardless of its value.) -/
def preEnablePipeline (env : WalletConnectorEnv) : Except ErrorVal Unit :=
  if ¬ env.connectorAppears then .error notFoundError
  else if ¬ semverSatisfies1x env.apiVersion then .error (incompatibleVersionError env.apiVersion)
  else if ¬ env.isEnabledResponds then .error unresponsiveError
  else .ok ()

/-- The pipeline through the `enable()` stage, before `catchError`: the
stream's error-or-value, paired with how many times `enable()` was
invoked.  An error thrown upstream skips the `enable` `concatMap`. -/
def enableStage (env : WalletConnectorEnv) : Except ErrorVal Unit × Nat :=
  match preEnablePipeline env with
  | .error e => (.error e, 0)
  | .ok _ =>
    if env.enableSucceeds then (.ok (), 1) else (.error enableRejectedError, 1)

/-- The `catchError((error, apis) => error ? throwError(... not authorized) : apis)`
stage: every error object is truthy, so every upstream error is replaced
by the not-authorized error. -/
def applyCatchError : Except ErrorVal Unit → Except ErrorVal Unit
  | .error _ => .error notAuthorizedError
  | .ok a => .ok a

/-- The whole `connectToWallet` bootstrap: the value `firstValueFrom`
settles with (service configuration on success) and the number of
`enable()` calls made. -/
def connectToWallet (env : WalletConnectorEnv) : Except ErrorVal ServiceUriConfig × Nat :=
  let r := enableStage env
  (match applyCatchError r.1 with
   | .error e => .error e
   | .ok _ => .ok env.uris, r.2)

/-! ## The `state$` stream (`combineLatest` of ledger stream and one-shot
private state)

`state$` combines the public data provider's ledger-state observable with
`from(providers.privateStateProvider.get(...))` — a promise created once,
at adapter construction.  `combineLatest` emits on each source emission
once every source has emitted at least once.  Later writes to the private
state store (`storePut`) are invisible to the adapter: nothing in the
stream re-reads the store. -/

/-- An event observable by a subscriber of the adapter's sources: a
ledger emission, resolution of the one-shot private-state promise, or a
later write to the private state store. -/
inductive AdapterEvent where
  | ledgerEmit (L : LedgerState)
  | privResolve
  | storePut (P : InvoicePrivateState)
deriving DecidableEq

/-- Is the event one of the two `combineLatest` sources (rather than a
store write)? -/
def isStreamSource : AdapterEvent → Bool
  | .storePut _ => false
  | _ => true

/-- The emissions of `state$` over a trace of events, given the private
state value `capturedPriv` with which the one-shot promise resolves.
`latest` is the last ledger value seen, `privArrived` whether the promise
has resolved. -/
def runAdapter (buyerKey : Bytes → Bytes → Bytes) (capturedPriv : InvoicePrivateState)
    (history : List TransactionHistoryEntry) :
    Option LedgerState → Bool → List AdapterEvent → List InvoiceDerivedState
  | _, _, [] => []
  | _, privArrived, .ledgerEmit L :: es =>
    (if privArrived then [projectDerivedState buyerKey L capturedPriv history] else []) ++
      runAdapter buyerKey capturedPriv history (some L) privArrived es
  | latest, _, .privResolve :: es =>
    (match latest with
     | some L => [projectDerivedState buyerKey L capturedPriv history]
     | none => []) ++
      runAdapter buyerKey capturedPriv history latest true es
  | latest, privArrived, .storePut _ :: es =>
    runAdapter buyerKey capturedPriv history latest privArrived es

/-! ## Hex encoding is injective -/

theorem hexDigit_inj_lt : ∀ m < 16, ∀ n < 16, hexDigit m = hexDigit n → m = n := by
  decide

theorem byteToHex_inj {a b : Fin 256} (h : byteToHex a = byteToHex b) : a = b := by
  have ha := a.isLt
  have hb := b.isLt
  simp only [byteToHex, List.cons.injEq, and_true] at h
  have h1 : a.val / 16 = b.val / 16 :=
    hexDigit_inj_lt _ (by omega) _ (by omega) h.1
  have h2 : a.val % 16 = b.val % 16 :=
    hexDigit_inj_lt _ (by omega) _ (by omega) h.2
  exact Fin.ext (by omega)

theorem flatMap_byteToHex_nil : ([] : Bytes).flatMap byteToHex = [] := rfl

theorem flatMap_byteToHex_cons (x : Fin 256) (xs : Bytes) :
    (x :: xs).flatMap byteToHex =
      hexDigit (x.val / 16) :: hexDigit (x.val % 16) :: xs.flatMap byteToHex := rfl

theorem toHex_inj {a b : Bytes} : toHex a = toHex b ↔ a = b := by
  constructor
  · intro h
    have h' : a.flatMap byteToHex = b.flatMap byteToHex := congrArg String.data h
    clear h
    induction a generalizing b with
    | nil =>
      cases b with
      | nil => rfl
      | cons y ys =>
        rw [flatMap_byteToHex_nil, flatMap_byteToHex_cons] at h'
        exact absurd h' (by simp)
    | cons x xs ih =>
      cases b with
      | nil =>
        rw [flatMap_byteToHex_cons, flatMap_byteToHex_nil] at h'
        exact absurd h' (by simp)
      | cons y ys =>
        rw [flatMap_byteToHex_cons, flatMap_byteToHex_cons] at h'
        injection h' with h1 h'
        injection h' with h2 h3
        have hx : x = y := byteToHex_inj (by simp [byteToHex, h1, h2])
        rw [hx, ih h3]
  · rintro rfl
    rfl

/-- C1: in every `state$` emission, `canPay` holds exactly when the public
key recomputed from the stored secret key and the current ledger sequence
(via the `buyerKey` pure circuit applied to the secret key and the
sequence encoded as 32 fixed-width bytes) equals the ledger's `buyerPk`,
the two compared as opaque byte strings (via their hex encodings, which
coincide exactly when the byte strings do). -/
theorem canPay_iff_buyerKey_matches (buyerKey : Bytes → Bytes → Bytes) (L : LedgerState)
    (P : InvoicePrivateState) (history : List TransactionHistoryEntry) :
    (projectDerivedState buyerKey L P history).canPay = true ↔
      buyerKey P.secretKey (convert_bigint_to_Uint8Array 32 L.sequence) = L.buyerPk := by
  simp only [projectDerivedState, decide_eq_true_eq]
  rw [toHex_inj]
  exact eq_comm

/-! ## Provider bundle accessor -/

theorem runGetProviders_cached (n : Nat) (p : Nat) (s : ProviderCache) (h : s.cache = some p) :
    runGetProviders n s = (List.replicate n p, s) := by
  induction n with
  | zero => rfl
  | succ n ih =>
    simp only [runGetProviders, getProviders, h, ih, List.replicate_succ]

/-- C3: however many callers request the provider bundle, exactly one
construction starts; every caller — in particular every caller arriving
before the first construction has resolved — receives the same promise
(identity 0), so all await the same in-flight construction and all later
callers receive the same cached bundle. -/
theorem getProviders_single_bootstrap (n : Nat) :
    runGetProviders (n + 1) initialProviderCache =
      (List.replicate (n + 1) 0, ⟨some 0, 1⟩) := by
  have h0 : getProviders initialProviderCache = (0, ⟨some 0, 1⟩) := rfl
  simp only [runGetProviders, h0, runGetProviders_cached n 0 ⟨some 0, 1⟩ rfl,
    List.replicate_succ]

/-- C8 counterexample: a failed provider-bundle construction is cached
forever.  With the single constructed promise (identity 0) rejecting, a
second accessor call still returns the same promise 0 and the
construction count stays 1 — the later call does not retry the
construction, so the failure does permanently poison the accessor,
contrary to the claim. -/
theorem provider_failure_not_retried :
    runGetProviders 2 initialProviderCache = ([0, 0], ⟨some 0, 1⟩) ∧
      [0, 0].map (fun _ => PromiseOutcome.rejected ⟨"construction failed"⟩) =
        [PromiseOutcome.rejected ⟨"construction failed"⟩,
          PromiseOutcome.rejected ⟨"construction failed"⟩] := by
  exact ⟨rfl, rfl⟩

/-- C8 (amended): when the provider-bundle construction fails, the
failure is observable to every caller — each of the `n + 1` callers
receives the same promise, whose rejection all of them observe — but no
later call retries: the construction count stays at 1 for the manager's
lifetime. -/
theorem provider_failure_shared_no_retry (n : Nat) (env : Nat → PromiseOutcome) (e : ErrorVal)
    (h : env 0 = .rejected e) :
    (runGetProviders (n + 1) initialProviderCache).1.map env =
        List.replicate (n + 1) (PromiseOutcome.rejected e) ∧
      (runGetProviders (n + 1) initialProviderCache).2.initCount = 1 := by
  rw [getProviders_single_bootstrap]
  constructor
  · simp [List.map_replicate, h]
  · rfl

/-- Witness for the amended C8 theorem at `n = 1` and a concrete
environment rejecting the constructed promise. -/
theorem provider_failure_shared_no_retry_witness :
    (runGetProviders 2 initialProviderCache).1.map
        (fun _ => PromiseOutcome.rejected ⟨"boom"⟩) =
        List.replicate 2 (PromiseOutcome.rejected ⟨"boom"⟩) ∧
      (runGetProviders 2 initialProviderCache).2.initCount = 1 :=
  provider_failure_shared_no_retry 1 (fun _ => PromiseOutcome.rejected ⟨"boom"⟩) ⟨"boom"⟩ rfl

/-! ## Wallet connector bootstrap -/

/-- C6: evaluating the bootstrap against a connector advertising
`apiVersion = 2.0.0` under the required range `1.x`.  The version-check
stage does construct the version-incompatible error and `enable()` is
never called (zero `enable` invocations), but the `catchError` stage
after `enable` replaces every upstream error, so the bootstrap actually
fails with the not-authorized error instead of the distinct
version-incompatible one the claim (and the surrounding code's own error
construction) calls for. -/
theorem connect_incompatible_version_masked :
    enableStage ⟨true, ⟨2, 0, 0⟩, true, true, true, ⟨"i", "w", "p"⟩⟩ =
        (.error (incompatibleVersionError ⟨2, 0, 0⟩), 0) ∧
      connectToWallet ⟨true, ⟨2, 0, 0⟩, true, true, true, ⟨"i", "w", "p"⟩⟩ =
        (.error notAuthorizedError, 0) ∧
      notAuthorizedError ≠ incompatibleVersionError ⟨2, 0, 0⟩ := by
  refine ⟨rfl, rfl, ?_⟩
  decide

/-! ## Transaction executor history -/

/-- C5: the transaction history is append-only and completion-ordered.
Every operation outcome leaves the previous history as a prefix; a
successful operation appends exactly one entry of its kind carrying the
finalized transaction hash and block height; a failed operation appends
nothing and rethrows; and a successful issue, then pay, then reset yields
the history `[issue, payment, reset]` in that order with each entry's
hash and height matching the finalized transaction data. -/
theorem transaction_history_append_only (history : List TransactionHistoryEntry)
    (amount : Nat) (d : InvoiceData) (n1 n2 n3 : Nat) (tx1 tx2 tx3 : TxPublicData) (e : Thrown) :
    (∀ o, ∃ t, (issueInvoice o amount d n1 history).1 = history ++ t) ∧
      (∀ o, ∃ t, (payInvoice o n2 history).1 = history ++ t) ∧
      (∀ o, ∃ t, (resetInvoice o n3 history).1 = history ++ t) ∧
      issueInvoice (.success tx1) amount d n1 history =
        (history ++ [⟨.issue, tx1.txHash, tx1.blockHeight, n1, some amount, some d⟩],
          .ok tx1.txHash) ∧
      payInvoice (.success tx2) n2 history =
        (history ++ [⟨.payment, tx2.txHash, tx2.blockHeight, n2, none, none⟩], .ok tx2.txHash) ∧
      resetInvoice (.success tx3) n3 history =
        (history ++ [⟨.reset, tx3.txHash, tx3.blockHeight, n3, none, none⟩], .ok tx3.txHash) ∧
      issueInvoice (.thrown e) amount d n1 history = (history, .error e) ∧
      payInvoice (.thrown e) n2 history = (history, .error e) ∧
      resetInvoice (.thrown e) n3 history = (history, .error e) ∧
      (resetInvoice (.success tx3) n3
          (payInvoice (.success tx2) n2
            (issueInvoice (.success tx1) amount d n1 []).1).1).1 =
        [⟨.issue, tx1.txHash, tx1.blockHeight, n1, some amount, some d⟩,
          ⟨.payment, tx2.txHash, tx2.blockHeight, n2, none, none⟩,
          ⟨.reset, tx3.txHash, tx3.blockHeight, n3, none, none⟩] := by
  refine ⟨?_, ?_, ?_, rfl, rfl, rfl, rfl, rfl, rfl, rfl⟩
  · intro o
    cases o with
    | success tx => exact ⟨_, rfl⟩
    | thrown e' => exact ⟨[], by simp [issueInvoice]⟩
  · intro o
    cases o with
    | success tx => exact ⟨_, rfl⟩
    | thrown e' => exact ⟨[], by simp [payInvoice]⟩
  · intro o
    cases o with
    | success tx => exact ⟨_, rfl⟩
    | thrown e' => exact ⟨[], by simp [resetInvoice]⟩

/-! ## The `state$` stream -/

theorem runAdapter_filter_storePut (bk : Bytes → Bytes → Bytes) (priv : InvoicePrivateState)
    (hist : List TransactionHistoryEntry) :
    ∀ (es : List AdapterEvent) (latest : Option LedgerState) (arrived : Bool),
      runAdapter bk priv hist latest arrived (es.filter isStreamSource) =
        runAdapter bk priv hist latest arrived es := by
  intro es
  induction es with
  | nil => intro latest arrived; rfl
  | cons e es ih =>
    intro latest arrived
    cases e with
    | ledgerEmit L => simp [List.filter, isStreamSource, runAdapter, ih]
    | privResolve => simp [List.filter, isStreamSource, runAdapter, ih]
    | storePut P => simp [List.filter, isStreamSource, runAdapter, ih]

theorem runAdapter_no_priv (bk : Bytes → Bytes → Bytes) (priv : InvoicePrivateState)
    (hist : List TransactionHistoryEntry) :
    ∀ (es : List AdapterEvent) (latest : Option LedgerState),
      AdapterEvent.privResolve ∉ es → runAdapter bk priv hist latest false es = [] := by
  intro es
  induction es with
  | nil => intro latest _; rfl
  | cons e es ih =>
    intro latest hmem
    cases e with
    | ledgerEmit L =>
      simp only [runAdapter, if_neg Bool.false_ne_true, List.nil_append]
      exact ih (some L) (fun h => hmem (List.mem_cons_of_mem _ h))
    | privResolve => exact absurd (List.mem_cons_self _ _) (fun h => hmem h)
    | storePut P =>
      simp only [runAdapter]
      exact ih latest (fun h => hmem (List.mem_cons_of_mem _ h))

theorem runAdapter_no_ledger (bk : Bytes → Bytes → Bytes) (priv : InvoicePrivateState)
    (hist : List TransactionHistoryEntry) :
    ∀ (es : List AdapterEvent) (arrived : Bool),
      (∀ L, AdapterEvent.ledgerEmit L ∉ es) →
        runAdapter bk priv hist none arrived es = [] := by
  intro es
  induction es with
  | nil => intro _ _; rfl
  | cons e es ih =>
    intro arrived hmem
    cases e with
    | ledgerEmit L => exact absurd (List.mem_cons_self _ _) (fun h => hmem L h)
    | privResolve =>
      simp only [runAdapter, List.nil_append]
      exact ih true (fun L h => hmem L (List.mem_cons_of_mem _ h))
    | storePut P =>
      simp only [runAdapter]
      exact ih arrived (fun L h => hmem L (List.mem_cons_of_mem _ h))

/-- C10: `state$` emits nothing until both the first ledger emission and
the one-shot private-state resolution have occurred — a trace with no
private-state resolution, or with no ledger emission, produces no
snapshot — and the private state used in every recomputation is the
single captured value: store writes after adapter construction
(`storePut` events) leave the emissions unchanged. -/
theorem state_stream_gating_and_one_shot (bk : Bytes → Bytes → Bytes)
    (priv : InvoicePrivateState) (hist : List TransactionHistoryEntry)
    (es : List AdapterEvent) :
    runAdapter bk priv hist none false (es.filter isStreamSource) =
        runAdapter bk priv hist none false es ∧
      (AdapterEvent.privResolve ∉ es → runAdapter bk priv hist none false es = []) ∧
      ((∀ L, AdapterEvent.ledgerEmit L ∉ es) → runAdapter bk priv hist none false es = []) :=
  ⟨runAdapter_filter_storePut bk priv hist es none false,
    runAdapter_no_priv bk priv hist es none,
    runAdapter_no_ledger bk priv hist es false⟩

/-- Witness for C10 at concrete traces: a store write followed by a
ledger emission (no private resolution) emits nothing and filtering the
store write changes nothing; a store write followed by the private
resolution (no ledger emission) also emits nothing. -/
theorem state_stream_gating_and_one_shot_witness :
    runAdapter (fun _ _ => []) ⟨[]⟩ []
        none false ([.storePut ⟨[]⟩, .ledgerEmit ⟨.EMPTY, 0, 0, [], ""⟩].filter isStreamSource) =
        runAdapter (fun _ _ => []) ⟨[]⟩ [] none false
          [.storePut ⟨[]⟩, .ledgerEmit ⟨.EMPTY, 0, 0, [], ""⟩] ∧
      runAdapter (fun _ _ => []) ⟨[]⟩ [] none false
          [.storePut ⟨[]⟩, .ledgerEmit ⟨.EMPTY, 0, 0, [], ""⟩] = [] ∧
      runAdapter (fun _ _ => []) ⟨[]⟩ [] none false [.storePut ⟨[]⟩, .privResolve] = [] :=
  ⟨(state_stream_gating_and_one_shot (fun _ _ => []) ⟨[]⟩ []
      [.storePut ⟨[]⟩, .ledgerEmit ⟨.EMPTY, 0, 0, [], ""⟩]).1,
    (state_stream_gating_and_one_shot (fun _ _ => []) ⟨[]⟩ []
      [.storePut ⟨[]⟩, .ledgerEmit ⟨.EMPTY, 0, 0, [], ""⟩]).2.1 (by decide),
    (state_stream_gating_and_one_shot (fun _ _ => []) ⟨[]⟩ []
      [.storePut ⟨[]⟩, .privResolve]).2.2 (fun L => by simp)⟩

/-! ## Deployment registry invariants -/

theorem cellStatus_eq_some {s : RegistryState} {id : Nat} {st : DeployStatus} :
    cellStatus s id = some st ↔
      ∃ c, s.cells.find? (fun c => decide (c.1 = id)) = some c ∧ c.2 = st := by
  simp [cellStatus, Option.map_eq_some']

theorem fst_update_pred (id j : Nat) (newSt : DeployStatus) :
    ((fun c : Nat × DeployStatus => decide (c.1 = j)) ∘
        (fun c : Nat × DeployStatus => if c.1 = id then (c.1, newSt) else c)) =
      fun c : Nat × DeployStatus => decide (c.1 = j) := by
  funext c
  by_cases h : c.1 = id <;> simp [h]

theorem completeTask_cells (id : Nat) (r : TaskResult) (s : RegistryState)
    (p : Nat × Option String) (hp : s.pending.find? (fun p => decide (p.1 = id)) = some p) :
    completeTask id r s =
      ⟨s.cells.map (fun c =>
          if c.1 = id then
            (c.1,
              match r with
              | .ok minted => DeployStatus.deployed (p.2.getD minted)
              | .thrownErr e => DeployStatus.failed (normalizeJsError e))
          else c),
        s.pending.filter (fun q => ¬ q.1 = id), s.nextId⟩ := by
  rw [completeTask, hp]

theorem registryStep_preserves_terminal (s : RegistryState) (e : RegistryEvent) (id : Nat)
    (st : DeployStatus) (hInv : RegInv s) (hst : cellStatus s id = some st)
    (hterm : st ≠ .inProgress) : cellStatus (registryStep s e) id = some st := by
  obtain ⟨c, hc, hcst⟩ := cellStatus_eq_some.mp hst
  cases e with
  | resolveCall addr =>
    rw [registryStep, resolve]
    cases hfind : findDeployedCell s.cells addr with
    | some c' => exact hst
    | none =>
      rw [cellStatus_eq_some]
      refine ⟨c, ?_, hcst⟩
      rw [List.find?_append, hc]
      rfl
  | taskDone id' r =>
    rw [registryStep]
    cases hp : s.pending.find? (fun p => decide (p.1 = id')) with
    | none =>
      rw [completeTask, hp]
      exact hst
    | some p =>
      by_cases hid : id = id'
      · exfalso
        subst hid
        have hpmem := List.mem_of_find?_eq_some hp
        have hinp : cellStatus s p.1 = some .inProgress := hInv.2 p hpmem
        have hp1 : p.1 = id := by simpa using List.find?_some hp
        rw [hp1, hst] at hinp
        exact hterm (Option.some.injEq .. ▸ hinp)
      · rw [completeTask_cells id' r s p hp, cellStatus_eq_some]
        have hc1 : c.1 = id := by simpa using List.find?_some hc
        refine ⟨c, ?_, hcst⟩
        rw [List.find?_map .., fst_update_pred id' id, hc]
        have : (if c.1 = id' then
            (c.1,
              match r with
              | .ok minted => DeployStatus.deployed (p.2.getD minted)
              | .thrownErr e => DeployStatus.failed (normalizeJsError e))
          else c) = c := by
          rw [if_neg (hc1 ▸ hid)]
        rw [Option.map_some', this]

theorem registryStep_inv (s : RegistryState) (e : RegistryEvent) (hInv : RegInv s) :
    RegInv (registryStep s e) := by
  obtain ⟨hids, hpend⟩ := hInv
  cases e with
  | resolveCall addr =>
    rw [registryStep, resolve]
    cases hfind : findDeployedCell s.cells addr with
    | some c' => exact ⟨hids, hpend⟩
    | none =>
      constructor
      · intro c hc
        rcases List.mem_append.mp hc with h | h
        · exact Nat.lt_succ_of_lt (hids c h)
        · simp only [List.mem_singleton] at h
          rw [h]
          exact Nat.lt_succ_self _
      · intro p hp
        rcases List.mem_append.mp hp with h | h
        · obtain ⟨c, hc, hcst⟩ := cellStatus_eq_some.mp (hpend p h)
          rw [cellStatus_eq_some]
          refine ⟨c, ?_, hcst⟩
          rw [List.find?_append, hc]
          rfl
        · simp only [List.mem_singleton] at h
          rw [h]
          rw [cellStatus_eq_some]
          refine ⟨(s.nextId, .inProgress), ?_, rfl⟩
          rw [List.find?_append]
          have hnone : s.cells.find? (fun c => decide (c.1 = s.nextId)) = none := by
            rw [List.find?_eq_none]
            intro x hx
            simp only [decide_eq_true_eq]
            exact Nat.ne_of_lt (hids x hx)
          rw [hnone]
          simp
  | taskDone id' r =>
    rw [registryStep]
    cases hp : s.pending.find? (fun p => decide (p.1 = id')) with
    | none =>
      rw [completeTask, hp]
      exact ⟨hids, hpend⟩
    | some p =>
      rw [completeTask_cells id' r s p hp]
      constructor
      · intro c hc
        obtain ⟨c₀, hc₀, hfc⟩ := List.mem_map.mp hc
        have : c.1 = c₀.1 := by
          rw [← hfc]
          by_cases h : c₀.1 = id' <;> simp [h]
        rw [this]
        exact hids c₀ hc₀
      · intro q hq
        have hqmem := List.mem_filter.mp hq
        have hq1 : ¬ q.1 = id' := by simpa using hqmem.2
        obtain ⟨c, hc, hcst⟩ := cellStatus_eq_some.mp (hpend q hqmem.1)
        rw [cellStatus_eq_some]
        have hc1 : c.1 = q.1 := by simpa using List.find?_some hc
        refine ⟨c, ?_, hcst⟩
        rw [List.find?_map .., fst_update_pred id' q.1, hc, Option.map_some',
          if_neg (hc1 ▸ hq1)]

theorem runRegistry_inv (trace : List RegistryEvent) : RegInv (runRegistry trace) := by
  have hinit : RegInv initialRegistry := by
    constructor
    · intro c hc
      exact absurd hc (List.not_mem_nil c)
    · intro p hp
      exact absurd hp (List.not_mem_nil p)
  rw [runRegistry]
  induction trace using List.reverseRecOn with
  | nil => exact hinit
  | append_singleton es e ih =>
    rw [List.foldl_append]
    exact registryStep_inv _ e ih

theorem foldl_preserves_terminal (more : List RegistryEvent) :
    ∀ (s : RegistryState) (id : Nat) (st : DeployStatus), RegInv s →
      cellStatus s id = some st → st ≠ .inProgress →
      cellStatus (more.foldl registryStep s) id = some st := by
  induction more with
  | nil => intro s id st _ hst _; exact hst
  | cons e es ih =>
    intro s id st hInv hst hterm
    rw [List.foldl_cons]
    exact ih _ id st (registryStep_inv s e hInv)
      (registryStep_preserves_terminal s e id st hInv hst hterm) hterm

theorem resolve_fresh (s : RegistryState) (addr : Option String) (hInv : RegInv s)
    (h : findDeployedCell s.cells addr = none) :
    cellStatus (resolve addr s).2 (resolve addr s).1 = some .inProgress := by
  rw [resolve, h]
  rw [cellStatus_eq_some]
  refine ⟨(s.nextId, .inProgress), ?_, rfl⟩
  rw [List.find?_append]
  have hnone : s.cells.find? (fun c => decide (c.1 = s.nextId)) = none := by
    rw [List.find?_eq_none]
    intro x hx
    simp only [decide_eq_true_eq]
    exact Nat.ne_of_lt (hInv.1 x hx)
  rw [hnone]
  simp

/-- C4: lifecycle of a Deployment.  Over any reachable registry state: a
resolve request that finds no existing deployed cell hands back a cell
created in `in-progress` status at that instant; the single delivery of a
fired deploy/join task that threw stores the terminal `failed` status
carrying the thrown value normalized to an Error; and once a cell holds a
terminal (`deployed` or `failed`) status it holds that exact status after
every further sequence of events — failures reach subscribers as stored
status values (the delivery is a total state update, never a thrown
exception or stream error). -/
theorem deployment_lifecycle_terminal (trace more : List RegistryEvent) (addr : Option String)
    (id : Nat) (st : DeployStatus) (e : Thrown) :
    (findDeployedCell (runRegistry trace).cells addr = none →
      cellStatus (resolve addr (runRegistry trace)).2 (resolve addr (runRegistry trace)).1 =
        some .inProgress) ∧
      (∀ p ∈ (runRegistry trace).pending, p.1 = id →
        cellStatus (completeTask id (.thrownErr e) (runRegistry trace)) id =
          some (.failed (normalizeJsError e))) ∧
      (cellStatus (runRegistry trace) id = some st → st ≠ .inProgress →
        cellStatus (runRegistry (trace ++ more)) id = some st) := by
  have hInv := runRegistry_inv trace
  refine ⟨fun h => resolve_fresh _ addr hInv h, ?_, ?_⟩
  · intro p hp hpid
    cases hfind : (runRegistry trace).pending.find? (fun q => decide (q.1 = id)) with
    | none =>
      exact absurd (by simpa using hpid) (by simpa using List.find?_eq_none.mp hfind p hp)
    | some q =>
      have hq1 : q.1 = id := by simpa using List.find?_some hfind
      obtain ⟨c, hc, hcst⟩ :=
        cellStatus_eq_some.mp (hInv.2 q (List.mem_of_find?_eq_some hfind))
      have hc1 : c.1 = q.1 := by simpa using List.find?_some hc
      rw [hq1] at hc hc1
      rw [completeTask_cells id _ _ q hfind, cellStatus_eq_some]
      refine ⟨(c.1, .failed (normalizeJsError e)), ?_, rfl⟩
      rw [List.find?_map .., fst_update_pred id id, hc, Option.map_some', if_pos hc1]
  · intro hst hterm
    rw [runRegistry, List.foldl_append]
    exact foldl_preserves_terminal more (runRegistry trace) id st hInv hst hterm

/-- Witness for C4 at concrete traces: after a fresh deploy completes
with address `x`, the cell keeps status `deployed x` across a further
resolve and a stray late delivery; a resolve finding no deployed cell for
`y` returns an `in-progress` cell; and a pending task throwing a
non-Error value stores `failed` with the normalized error. -/
theorem deployment_lifecycle_terminal_witness :
    cellStatus
        (resolve (some "y") (runRegistry [.resolveCall none, .taskDone 0 (.ok "x")])).2
        (resolve (some "y") (runRegistry [.resolveCall none, .taskDone 0 (.ok "x")])).1 =
        some .inProgress ∧
      cellStatus
          (completeTask 0 (.thrownErr (.nonErr "oops")) (runRegistry [.resolveCall none])) 0 =
        some (.failed ⟨"oops"⟩) ∧
      cellStatus
          (runRegistry ([.resolveCall none, .taskDone 0 (.ok "x")] ++
            [.resolveCall (some "x"), .taskDone 0 (.thrownErr (.nonErr "late"))])) 0 =
        some (.deployed "x") :=
  ⟨(deployment_lifecycle_terminal [.resolveCall none, .taskDone 0 (.ok "x")]
      [] (some "y") 0 .inProgress (.nonErr "oops")).1 (by decide),
    (deployment_lifecycle_terminal [.resolveCall none] [] none 0 .inProgress
      (.nonErr "oops")).2.1 (0, none) (by simp [runRegistry, registryStep, resolve,
        initialRegistry, findDeployedCell]) rfl,
    (deployment_lifecycle_terminal [.resolveCall none, .taskDone 0 (.ok "x")]
      [.resolveCall (some "x"), .taskDone 0 (.thrownErr (.nonErr "late"))]
      none 0 (.deployed "x") (.nonErr "oops")).2.2 (by decide) (by decide)⟩

/-- C2 counterexample: two resolve calls for the same address `a`, both
arriving before either join completes, each create a fresh Deployment
(the dedup scan only matches cells already in `deployed` status); after
both complete, the registry holds two distinct Deployments (identities 0
and 1) both `deployed` at address `a` — a reachable state with two
Deployments for the same known address, contradicting the claimed
invariant. -/
theorem registry_duplicate_deployed_address :
    (runRegistry [.resolveCall (some "a"), .resolveCall (some "a"),
        .taskDone 0 (.ok "a"), .taskDone 1 (.ok "a")]).cells =
      [(0, .deployed "a"), (1, .deployed "a")] ∧
      ((runRegistry [.resolveCall (some "a"), .resolveCall (some "a"),
          .taskDone 0 (.ok "a"), .taskDone 1 (.ok "a")]).cells.filter
        (fun c => decide (c.2 = DeployStatus.deployed "a"))).length = 2 := by
  decide

/-- C2 (amended): once some Deployment for an address has reached
`deployed` status, every later `resolve` for that address returns the
first such existing Deployment (by identity) and leaves the registry
unchanged — no new Deployment is created or appended.  However, while no
deployed Deployment for the address exists yet, concurrent resolves for
it each create their own Deployment, so two Deployments for the same
address are reachable (see the counterexample). -/
theorem resolve_deployed_address_idempotent (s : RegistryState) (a : String)
    (c : Nat × DeployStatus) (h : findDeployedCell s.cells (some a) = some c) :
    resolve (some a) s = (c.1, s) ∧ c ∈ s.cells ∧ c.2 = .deployed a := by
  refine ⟨by rw [resolve, h], List.mem_of_find?_eq_some h, ?_⟩
  have h' : s.cells.find?
      (fun c => match c.2 with
        | DeployStatus.deployed a' => decide (some a = some a')
        | _ => false) = some c := h
  have hpred := List.find?_some h'
  simp only at hpred
  cases hc2 : c.2 with
  | inProgress => rw [hc2] at hpred; simp at hpred
  | deployed a' =>
    rw [hc2] at hpred
    simp only [decide_eq_true_eq, Option.some.injEq] at hpred
    rw [hpred]
  | failed err => rw [hc2] at hpred; simp at hpred

/-- Witness for the amended C2 theorem at a concrete registry holding a
deployed cell for address `a`. -/
theorem resolve_deployed_address_idempotent_witness :
    resolve (some "a") ⟨[(0, .deployed "a")], [], 1⟩ = (0, ⟨[(0, .deployed "a")], [], 1⟩) ∧
      (0, DeployStatus.deployed "a") ∈
        (⟨[(0, .deployed "a")], [], 1⟩ : RegistryState).cells ∧
      (0, DeployStatus.deployed "a").2 = .deployed "a" :=
  resolve_deployed_address_idempotent ⟨[(0, .deployed "a")], [], 1⟩ "a"
    (0, .deployed "a") (by decide)

/-! ## JSON serialization round trip -/

theorem hexCharVal_hexDigit : ∀ m < 16, hexCharVal (hexDigit m) = some m := by
  decide

theorem parseStringBody_escape (s : List Char) (rest : List Char) :
    parseStringBody (escString s ++ '"' :: rest) = some (s, rest) := by
  induction s with
  | nil =>
    rw [show escString [] = [] from rfl, List.nil_append, parseStringBody.eq_def]
    simp
  | cons c cs ih =>
    have hesc : escString (c :: cs) = escapeChar c ++ escString cs := by
      simp [escString]
    rw [hesc, List.append_assoc]
    by_cases h1 : c = '"'
    · subst h1
      rw [show escapeChar '"' = ['\\', '"'] from by decide, List.cons_append,
        List.cons_append, List.nil_append, parseStringBody.eq_def]
      simp [ih]
    by_cases h2 : c = '\\'
    · subst h2
      rw [show escapeChar '\\' = ['\\', '\\'] from by decide, List.cons_append,
        List.cons_append, List.nil_append, parseStringBody.eq_def]
      simp [ih]
    by_cases h3 : c = '\x08'
    · subst h3
      rw [show escapeChar '\x08' = ['\\', 'b'] from by decide, List.cons_append,
        List.cons_append, List.nil_append, parseStringBody.eq_def]
      simp [ih]
    by_cases h4 : c = '\x0c'
    · subst h4
      rw [show escapeChar '\x0c' = ['\\', 'f'] from by decide, List.cons_append,
        List.cons_append, List.nil_append, parseStringBody.eq_def]
      simp [ih]
    by_cases h5 : c = '\n'
    · subst h5
      rw [show escapeChar '\n' = ['\\', 'n'] from by decide, List.cons_append,
        List.cons_append, List.nil_append, parseStringBody.eq_def]
      simp [ih]
    by_cases h6 : c = '\r'
    · subst h6
      rw [show escapeChar '\r' = ['\\', 'r'] from by decide, List.cons_append,
        List.cons_append, List.nil_append, parseStringBody.eq_def]
      simp [ih]
    by_cases h7 : c = '\t'
    · subst h7
      rw [show escapeChar '\t' = ['\\', 't'] from by decide, List.cons_append,
        List.cons_append, List.nil_append, parseStringBody.eq_def]
      simp [ih]
    by_cases h8 : c.toNat < 32
    · have he : escapeChar c =
          '\\' :: 'u' :: '0' :: '0' :: hexDigit (c.toNat / 16) :: [hexDigit (c.toNat % 16)] := by
        simp [escapeChar, h1, h2, h3, h4, h5, h6, h7, h8]
      have hhi : hexCharVal (hexDigit (c.toNat / 16)) = some (c.toNat / 16) :=
        hexCharVal_hexDigit _ (by omega)
      have hlo : hexCharVal (hexDigit (c.toNat % 16)) = some (c.toNat % 16) :=
        hexCharVal_hexDigit _ (by omega)
      have h0 : hexCharVal '0' = some 0 := by decide
      rw [he, List.cons_append, List.cons_append, List.cons_append, List.cons_append,
        List.cons_append, List.cons_append, List.nil_append, parseStringBody.eq_def]
      simp [h0, hhi, hlo, ih]
      have hval : c.toNat / 16 * 16 + c.toNat % 16 = c.toNat := by
        omega
      rw [hval, Char.ofNat_toNat]
    · have he : escapeChar c = [c] := by
        simp [escapeChar, h1, h2, h3, h4, h5, h6, h7, h8]
      rw [he, List.cons_append, List.nil_append, parseStringBody.eq_def]
      simp [h1, h2, h8, ih]

theorem parseScalar_quoted (s : String) (rest : List Char) :
    parseScalar ('"' :: (escString s.data ++ '"' :: rest)) = some (.str s, rest) := by
  rw [parseScalar.eq_def]
  simp [parseStringBody_escape]

theorem parseMembers_last (fuel : Nat) (k v : String) (rest : List Char) :
    parseMembers (fuel + 1)
        ('"' :: (escString k.data ++ '"' :: ':' ::
          '"' :: (escString v.data ++ '"' :: '\x7d' :: rest))) =
      some ([(k, .str v)], rest) := by
  rw [parseMembers.eq_def]
  simp [parseStringBody_escape, parseScalar_quoted]

theorem parseMembers_cons_step (fuel : Nat) (k v : String) (X : List Char)
    (ms : List (String × Json)) (rest : List Char)
    (h : parseMembers fuel X = some (ms, rest)) :
    parseMembers (fuel + 1)
        ('"' :: (escString k.data ++ '"' :: ':' ::
          '"' :: (escString v.data ++ '"' :: ',' :: X))) =
      some ((k, .str v) :: ms, rest) := by
  rw [parseMembers.eq_def]
  simp [parseStringBody_escape, parseScalar_quoted, h]

theorem parseMembers_invoice (d : InvoiceData) (m : Nat) :
    parseMembers (m + 4)
        (quoteChars "title" ++ ':' :: quoteChars d.title ++
          ',' :: quoteChars "description" ++ ':' :: quoteChars d.description ++
          ',' :: quoteChars "issuedAt" ++ ':' :: quoteChars d.issuedAt ++
          ',' :: quoteChars "currency" ++ ':' :: quoteChars d.currency ++ ['\x7d']) =
      some ([("title", .str d.title), ("description", .str d.description),
        ("issuedAt", .str d.issuedAt), ("currency", .str d.currency)], []) := by
  have h4 := parseMembers_last m "currency" d.currency []
  have h3 := parseMembers_cons_step (m + 1) "issuedAt" d.issuedAt _ _ _ h4
  have h2 := parseMembers_cons_step (m + 2) "description" d.description _ _ _ h3
  have h1 := parseMembers_cons_step (m + 3) "title" d.title _ _ _ h2
  simp only [quoteChars, List.cons_append, List.append_assoc, List.nil_append] at h1 ⊢
  exact h1

theorem parseValue_cons_members (T' : List Char) (ms : List (String × Json))
    (hm : ∀ m, parseMembers (m + 4) ('"' :: T') = some (ms, []))
    (hlen : 3 ≤ T'.length) :
    parseValue ('\x7b' :: '"' :: T') = some (.obj ms, []) := by
  have hred : parseValue ('\x7b' :: '"' :: T') =
      (parseMembers (T'.length + 1) ('"' :: T')).map (fun p => (Json.obj p.1, p.2)) := by
    rw [parseValue.eq_def]
    simp
  obtain ⟨m, hmm⟩ : ∃ m, T'.length + 1 = m + 4 := ⟨T'.length - 3, by omega⟩
  rw [hred, hmm, hm m]
  rfl

theorem parseValue_stringify (d : InvoiceData) :
    parseValue (stringifyChars d) = some (invoiceToJson d, []) := by
  have hT' : (quoteChars "title" ++ ':' :: quoteChars d.title ++
      ',' :: quoteChars "description" ++ ':' :: quoteChars d.description ++
      ',' :: quoteChars "issuedAt" ++ ':' :: quoteChars d.issuedAt ++
      ',' :: quoteChars "currency" ++ ':' :: quoteChars d.currency ++ ['\x7d']) =
      '"' :: ((escString "title".data ++ ['"']) ++ ':' :: quoteChars d.title ++
        ',' :: quoteChars "description" ++ ':' :: quoteChars d.description ++
        ',' :: quoteChars "issuedAt" ++ ':' :: quoteChars d.issuedAt ++
        ',' :: quoteChars "currency" ++ ':' :: quoteChars d.currency ++ ['\x7d']) := by
    simp [quoteChars, List.append_assoc]
  have hlen : 3 ≤ ((escString "title".data ++ ['"']) ++ ':' :: quoteChars d.title ++
      ',' :: quoteChars "description" ++ ':' :: quoteChars d.description ++
      ',' :: quoteChars "issuedAt" ++ ':' :: quoteChars d.issuedAt ++
      ',' :: quoteChars "currency" ++ ':' :: quoteChars d.currency ++ ['\x7d']).length := by
    simp [List.length_append, List.length_cons]
    omega
  have hm : ∀ m, parseMembers (m + 4)
      ('"' :: ((escString "title".data ++ ['"']) ++ ':' :: quoteChars d.title ++
        ',' :: quoteChars "description" ++ ':' :: quoteChars d.description ++
        ',' :: quoteChars "issuedAt" ++ ':' :: quoteChars d.issuedAt ++
        ',' :: quoteChars "currency" ++ ':' :: quoteChars d.currency ++ ['\x7d'])) =
      some ([("title", .str d.title), ("description", .str d.description),
        ("issuedAt", .str d.issuedAt), ("currency", .str d.currency)], []) := by
    intro m
    rw [← hT']
    exact parseMembers_invoice d m
  have hfinal := parseValue_cons_members _ _ hm hlen
  rw [show stringifyChars d = '\x7b' :: (quoteChars "title" ++ ':' :: quoteChars d.title ++
      ',' :: quoteChars "description" ++ ':' :: quoteChars d.description ++
      ',' :: quoteChars "issuedAt" ++ ':' :: quoteChars d.issuedAt ++
      ',' :: quoteChars "currency" ++ ':' :: quoteChars d.currency ++ ['\x7d']) from rfl, hT']
  exact hfinal

theorem jsParse_stringifyInvoice (d : InvoiceData) :
    jsParse (stringifyInvoice d) = some (invoiceToJson d) := by
  have h1 : parseValue (stringifyInvoice d).data = some (invoiceToJson d, []) :=
    parseValue_stringify d
  simp [jsParse, h1]

theorem stringifyInvoice_ne_empty (d : InvoiceData) : stringifyInvoice d ≠ "" := by
  intro h
  have h' := congrArg String.data h
  simp [stringifyInvoice, stringifyChars] at h'

/-- C9: the issue-and-observe round trip.  For every invoice record, when
a derived-state emission's ledger `invoiceJson` carries the serialization
that `issueInvoice` submits (`JSON.stringify` of the record), the
emission's `invoiceData` field is exactly the JSON object denoted by the
input record — deep-equal to it member for member. -/
theorem issue_roundtrip_invoiceData (buyerKey : Bytes → Bytes → Bytes) (L : LedgerState)
    (P : InvoicePrivateState) (history : List TransactionHistoryEntry) (d : InvoiceData)
    (h : L.invoiceJson = stringifyInvoice d) :
    (projectDerivedState buyerKey L P history).invoiceData = some (invoiceToJson d) := by
  simp only [projectDerivedState]
  rw [h, if_neg (stringifyInvoice_ne_empty d), jsParse_stringifyInvoice]

/-- Witness for C9 at the record `{title: T, description: D, issuedAt:
2025-01-01, currency: NIGHT}` from the spec's example. -/
theorem issue_roundtrip_invoiceData_witness :
    (projectDerivedState (fun _ _ => []) ⟨.ISSUED, 1, 1000, [],
        stringifyInvoice ⟨"T", "D", "2025-01-01", "NIGHT"⟩⟩ ⟨[]⟩ []).invoiceData =
      some (invoiceToJson ⟨"T", "D", "2025-01-01", "NIGHT"⟩) :=
  issue_roundtrip_invoiceData _ _ _ _ _ rfl

theorem jsParse_zero : jsParse "0" = some (.num 0) := rfl

/-- C7 counterexample: the ledger string `0` is non-empty and parses as
JSON (the number 0), but is not the expected invoice structure; the
emission's `invoiceData` is nevertheless the defined value 0, not
undefined — the source casts the parsed value without structural
validation, so the claim's "fails to parse as the expected invoice
structure implies undefined" is false on the code. -/
theorem invoiceData_defined_on_non_invoice_json :
    (projectDerivedState (fun _ _ => []) ⟨.ISSUED, 1, 5, [], "0"⟩ ⟨[]⟩ []).invoiceData =
        some (.num 0) ∧
      decodeInvoiceData (.num 0) = none ∧
      some (Json.num 0) ≠ (none : Option Json) := by
  refine ⟨?_, rfl, by simp⟩
  show (if ("0" : String) = "" then none else jsParse "0") = some (.num 0)
  rw [if_neg (by decide), jsParse_zero]

/-- C7 (amended): in every derived-state emission, `invoiceData` is
undefined exactly when the ledger's `invoiceJson` is empty or fails to
parse as JSON (a syntax-level failure, which the source catches and
logs); the projection is a total function, so the failure never throws to
the subscriber nor terminates the stream.  A string that parses as JSON
but not as the invoice structure is carried through unvalidated. -/
theorem invoiceData_none_iff_unparsable (buyerKey : Bytes → Bytes → Bytes) (L : LedgerState)
    (P : InvoicePrivateState) (history : List TransactionHistoryEntry) :
    (projectDerivedState buyerKey L P history).invoiceData = none ↔
      (L.invoiceJson = "" ∨ jsParse L.invoiceJson = none) := by
  simp only [projectDerivedState]
  by_cases h : L.invoiceJson = ""
  · simp [h]
  · simp [h]

end Billow
